import Mathlib

/-
Verification of the shape/texture-bias evaluation pipeline (src/main.py).

The development shallowly embeds the algorithmic core of the program:
the restricted-decision reducer of the main script, the totals and
proportions aggregators, the triplet similarity engine with its pairwise
similarity cache, the null-model (fake triplet) generator, and the
similarity totals aggregator (proportions and matrix modes).

Machine floats are modelled as rationals where the code only compares
and adds, and as real numbers where square roots and exponentials occur.
Randomness (numpy draws) is modelled as an oracle stream of values
consumed by the code's rejection loop.
-/

namespace Saycam

/-! ## Decision reducer (src/main.py, __main__ lines 966-976) -/

/-- Modelled from the spec: the fixed ordered list of the 16 Geirhos
style-transfer classes supplied by the external module
helper.human_categories (not under src/); main.py's own docstring lists
them as airplane, bear, ..., oven, truck. -/
def geirhos16 : List String :=
  ["airplane", "bear", "bicycle", "bird", "boat", "bottle", "car", "cat",
   "chair", "clock", "dog", "elephant", "keyboard", "knife", "oven", "truck"]

/-- Embeds indexing a category score vector at a label's position:
class_values[shape_categories.index(x)] in main.py. -/
def catScore (cats : List String) (values : List ℚ) (x : String) : ℚ :=
  values.getD (cats.indexOf x) 0

/-- Embeds lines 968-973 of main.py: decision_idx is shape_idx when the
shape score is strictly greater than the texture score, else texture_idx. -/
def restrictedDecisionIdx (cats : List String) (values : List ℚ)
    (shape texture : String) : ℕ :=
  if catScore cats values shape > catScore cats values texture then
    cats.indexOf shape
  else
    cats.indexOf texture

/-- Embeds line 974 of main.py: decision_restricted = shape_categories[decision_idx]. -/
def restrictedDecision (cats : List String) (values : List ℚ)
    (shape texture : String) : String :=
  cats.getD (restrictedDecisionIdx cats values shape texture) ""

/-- Embeds torch.nn.Softmax(dim=0) applied to a 2-element tensor
(line 976 of main.py): the normalized exponential of the two entries. -/
noncomputable def softmax2 (a b : ℝ) : ℝ × ℝ :=
  (Real.exp a / (Real.exp a + Real.exp b),
   Real.exp b / (Real.exp a + Real.exp b))

/-- Embeds lines 975-976 of main.py: the restricted 2-vector is the 2-way
softmax of the raw shape and texture scores. -/
noncomputable def restrictedClassValues (cats : List String) (values : List ℚ)
    (shape texture : String) : ℝ × ℝ :=
  softmax2 ((catScore cats values shape : ℚ) : ℝ)
    ((catScore cats values texture : ℚ) : ℝ)

/-! ## Proportions aggregator (src/main.py, calculate_proportions, lines 225-260) -/

/-- Embeds calculate_proportions of main.py on the counts read from the
totals row. Python raises ZeroDivisionError on an integer division by
zero; divisions are evaluated in source order (restricted proportions at
lines 239-240 divide by total first, then lines 242-243 divide by
shape+texture), so a zero denominator at either point yields failure,
modelled as none. On success the six proportions are returned in the
order they are written to proportions.txt. -/
def calculate_proportions (shape texture total rshape rtexture : ℕ) :
    Option (ℚ × ℚ × ℚ × ℚ × ℚ × ℚ) :=
  if total = 0 then none
  else if shape + texture = 0 then none
  else some ((shape : ℚ) / ((shape : ℚ) + (texture : ℚ)),
             (texture : ℚ) / ((shape : ℚ) + (texture : ℚ)),
             (shape : ℚ) / (total : ℚ),
             (texture : ℚ) / (total : ℚ),
             (rshape : ℚ) / (total : ℚ),
             (rtexture : ℚ) / (total : ℚ))

/-! ## Closer indicators (src/main.py, triplets lines 751-771 and
generate_fake_triplets lines 483-495) -/

/-- Embeds the indicator assignment pattern used for dot product and
cosine columns: the shape side gets 1 iff its value is strictly greater,
otherwise the texture side gets 1. The pair is (shape closer, texture closer). -/
noncomputable def closerPair (s t : ℝ) : ℤ × ℤ :=
  if s > t then (1, 0) else (0, 1)

/-- Embeds the indicator assignment for Euclidean distance (lines 766-771):
the shape side gets 1 iff its distance is strictly smaller. -/
noncomputable def edCloserPair (s t : ℝ) : ℤ × ℤ :=
  if s < t then (1, 0) else (0, 1)

/-! ## Similarity measures and per-triplet rows (src/main.py, triplets
lines 713-771 and generate_fake_triplets lines 473-495) -/

/-- Embeds np.dot on two equal-length vectors. -/
noncomputable def dotList (u v : List ℝ) : ℝ :=
  (List.zipWith (fun a b => a * b) u v).sum

/-- Sum of squares of a vector's coordinates. -/
noncomputable def sumSq (l : List ℝ) : ℝ :=
  (l.map (fun x => x * x)).sum

/-- Embeds np.linalg.norm: the Euclidean magnitude of a vector. -/
noncomputable def normL (l : List ℝ) : ℝ :=
  Real.sqrt (sumSq l)

/-- The eps argument of torch.nn.CosineSimilarity at line 674 of main.py. -/
noncomputable def epsTorch : ℝ := 1 / 100000000

/-- Embeds torch.nn.CosineSimilarity(dim=0, eps=1e-08): the dot product
divided by the norm product clamped below by eps. -/
noncomputable def cosSimTorch (u v : List ℝ) : ℝ :=
  dotList u v / max (normL u * normL v) epsTorch

/-- Embeds scipy.spatial.distance.cosine, used by generate_fake_triplets:
one minus the cosine similarity (no epsilon clamp). -/
noncomputable def cosDistScipy (u v : List ℝ) : ℝ :=
  1 - dotList u v / (normL u * normL v)

/-- Embeds torch.cdist on two single-row matrices: the L2 norm of the
coordinate-wise difference. -/
noncomputable def edList (u v : List ℝ) : ℝ :=
  Real.sqrt ((List.zipWith (fun a b => (a - b) * (a - b)) u v).sum)

/-- One row written by the triplet engine (triplets, lines 744-771):
the six similarity measures and the six closer indicators. -/
structure EngRow where
  sDot : ℝ
  sCos : ℝ
  sEd : ℝ
  tDot : ℝ
  tCos : ℝ
  tEd : ℝ
  sDotC : ℤ
  tDotC : ℤ
  sCosC : ℤ
  tCosC : ℤ
  sEdC : ℤ
  tEdC : ℤ

/-- Embeds the per-triplet computation of the triplet engine on the three
embeddings: dot products via np.dot, cosine similarities via the torch
module, Euclidean distances via torch.cdist (shape/texture leg against
the anchor), and the strict-comparison closer indicators. -/
noncomputable def engineRow (anchor shapeM textureM : List ℝ) : EngRow :=
  { sDot := dotList anchor shapeM
    sCos := cosSimTorch anchor shapeM
    sEd := edList shapeM anchor
    tDot := dotList anchor textureM
    tCos := cosSimTorch anchor textureM
    tEd := edList textureM anchor
    sDotC := (closerPair (dotList anchor shapeM) (dotList anchor textureM)).1
    tDotC := (closerPair (dotList anchor shapeM) (dotList anchor textureM)).2
    sCosC := (closerPair (cosSimTorch anchor shapeM) (cosSimTorch anchor textureM)).1
    tCosC := (closerPair (cosSimTorch anchor shapeM) (cosSimTorch anchor textureM)).2
    sEdC := (edCloserPair (edList shapeM anchor) (edList textureM anchor)).1
    tEdC := (edCloserPair (edList shapeM anchor) (edList textureM anchor)).2 }

/-- One row written by the null-model generator (generate_fake_triplets,
lines 473-495): only dot and cosine columns exist, and the Cos columns
hold scipy cosine distance, not cosine similarity. -/
structure FakeRow where
  sDot : ℝ
  sCos : ℝ
  tDot : ℝ
  tCos : ℝ
  sDotC : ℤ
  tDotC : ℤ
  sCosC : ℤ
  tCosC : ℤ

/-- Embeds the per-triplet computation of generate_fake_triplets on the
three synthetic embeddings. -/
noncomputable def fakeRow (anchor shapeM textureM : List ℝ) : FakeRow :=
  { sDot := dotList anchor shapeM
    sCos := cosDistScipy anchor shapeM
    tDot := dotList anchor textureM
    tCos := cosDistScipy anchor textureM
    sDotC := (closerPair (dotList anchor shapeM) (dotList anchor textureM)).1
    tDotC := (closerPair (dotList anchor shapeM) (dotList anchor textureM)).2
    sCosC := (closerPair (cosDistScipy anchor shapeM) (cosDistScipy anchor textureM)).1
    tCosC := (closerPair (cosDistScipy anchor shapeM) (cosDistScipy anchor textureM)).2 }

/-- Concrete anchor used by the C6 counterexample and witnesses. -/
def vA : List ℝ := [1, 0]

/-- Concrete shape match (identical to the anchor). -/
def vS : List ℝ := [1, 0]

/-- Concrete texture match (orthogonal to the anchor). -/
def vT : List ℝ := [0, 1]

/-! ## Similarity totals aggregator (src/main.py,
calculate_similarity_totals, lines 501-595) -/

/-- One row of a per-anchor similarity CSV as read back by
calculate_similarity_totals: the six integer closer-indicator columns. -/
structure SRow where
  sd : ℤ
  sc : ℤ
  se : ℤ
  td : ℤ
  tc : ℤ
  te : ℤ
deriving DecidableEq

/-- The 2x2 agreement matrix counters m0_0, m0_1, m1_0, m1_1. -/
structure Mat where
  m00 : ℕ
  m01 : ℕ
  m10 : ℕ
  m11 : ℕ
deriving DecidableEq

/-- Embeds the matrix branch of calculate_similarity_totals
(lines 568-578): the nested if/elif structure crediting a row to one of
the four cells, or to none when no branch matches. -/
def matrixStep (m : Mat) (r : SRow) : Mat :=
  if r.sd = 1 then
    if r.sc = 1 then { m with m00 := m.m00 + 1 }
    else if r.tc = 1 then { m with m10 := m.m10 + 1 }
    else m
  else if r.td = 1 then
    if r.sc = 1 then { m with m01 := m.m01 + 1 }
    else if r.tc = 1 then { m with m11 := m.m11 + 1 }
    else m
  else m

/-- Folds the matrix branch over all rows, starting from zero counters. -/
def matrixFold (rows : List SRow) : Mat :=
  rows.foldl matrixStep ⟨0, 0, 0, 0⟩

/-- Total of the four matrix cells. -/
def cellSum (m : Mat) : ℕ :=
  m.m00 + m.m01 + m.m10 + m.m11

/-- Sum of one indicator column over all rows (the six running counters
of the proportions branch, lines 560-566). -/
def sumBy (rows : List SRow) (g : SRow → ℤ) : ℤ :=
  (rows.map g).sum

/-- Embeds the proportions branch output (lines 581-586): each indicator
sum divided by the row count, in the column order Shape Dot, Shape Cos,
Shape ED, Texture Dot, Texture Cos, Texture ED. -/
def propRow (rows : List SRow) : ℚ × ℚ × ℚ × ℚ × ℚ × ℚ :=
  (((sumBy rows (fun r => r.sd) : ℤ) : ℚ) / (rows.length : ℚ),
   ((sumBy rows (fun r => r.sc) : ℤ) : ℚ) / (rows.length : ℚ),
   ((sumBy rows (fun r => r.se) : ℤ) : ℚ) / (rows.length : ℚ),
   ((sumBy rows (fun r => r.td) : ℤ) : ℚ) / (rows.length : ℚ),
   ((sumBy rows (fun r => r.tc) : ℤ) : ℚ) / (rows.length : ℚ),
   ((sumBy rows (fun r => r.te) : ℤ) : ℚ) / (rows.length : ℚ))

/-- A row whose indicator pairs are exact complements: for each measure,
exactly one of the shape/texture indicators is 1 and the other is 0. -/
abbrev compl01 (r : SRow) : Prop :=
  (r.sd = 1 ∧ r.td = 0 ∨ r.sd = 0 ∧ r.td = 1) ∧
  (r.sc = 1 ∧ r.tc = 0 ∨ r.sc = 0 ∧ r.tc = 1) ∧
  (r.se = 1 ∧ r.te = 0 ∨ r.se = 0 ∧ r.te = 1)

/-- A concrete row dropped by the matrix branch: dot indicator credits
shape but neither cosine indicator is set. -/
def droppedRow : SRow := ⟨1, 0, 0, 0, 0, 0⟩

/-- A concrete well-formed row (shape wins dot and cosine, texture wins
Euclidean) used by the C10 witness. -/
def rowW : SRow := ⟨1, 1, 0, 0, 0, 1⟩

/-! ## Null-model generator (src/main.py, generate_fake_triplets,
lines 446-459) -/

/-- Embeds the magnitude rejection loop of generate_fake_triplets
(lines 452-454): mag starts at -1 and is redrawn while negative, so the
accepted magnitude is the first non-negative value of the draw stream
(the numpy normal draws, modelled as an oracle list of rationals). -/
def firstNonneg : List ℚ → Option ℚ
  | [] => none
  | x :: xs => if x < 0 then firstNonneg xs else some x

/-- Embeds line 458 of generate_fake_triplets:
new_l = (mag * l) / current_mag, coordinate-wise. -/
noncomputable def rescaleVec (mag : ℝ) (l : List ℝ) : List ℝ :=
  l.map (fun x => mag * x / normL l)

/-- Embeds the scale argument of the normal draw at line 454:
min(avg - min_e, max_e - avg) / 2. -/
noncomputable def scaleParam (avg mn mx : ℝ) : ℝ :=
  min (avg - mn) (mx - avg) / 2

/-! ## Totals aggregator (src/main.py, calculate_totals, lines 136-222) -/

/-- Embeds one row of a per-shape-category decision CSV as read back by
calculate_totals: the category the row is credited to (the CSV file's
shape, an index into the 16 categories) and the five integer columns
consumed by the aggregation loop. -/
structure TRow where
  cat : Fin 16
  sd : ℤ
  td : ℤ
  nei : ℤ
  rs : ℤ
  rt : ℤ
deriving DecidableEq

/-- State of the five per-category accumulator dictionaries of
calculate_totals (shape_dict, texture_dict, neither_dict,
restricted_shape_dict, restricted_texture_dict). -/
structure TotState where
  fsh : Fin 16 → ℤ
  ftx : Fin 16 → ℤ
  fne : Fin 16 → ℤ
  frs : Fin 16 → ℤ
  frt : Fin 16 → ℤ

/-- Adds v to a per-category dictionary at key c. -/
def bump (f : Fin 16 → ℤ) (c : Fin 16) (v : ℤ) : Fin 16 → ℤ :=
  fun d => if d = c then f d + v else f d

/-- Embeds lines 169-175 of main.py: a row contributes to the five
dictionaries only when its Restricted Shape Decision differs from its
Restricted Texture Decision. -/
def stepTotals (st : TotState) (r : TRow) : TotState :=
  if r.rs = r.rt then st
  else
    ⟨bump st.fsh r.cat r.sd, bump st.ftx r.cat r.td, bump st.fne r.cat r.nei,
     bump st.frs r.cat r.rs, bump st.frt r.cat r.rt⟩

/-- All five dictionaries initialized to 0 for every category
(lines 156-161 of main.py). -/
def initTotals : TotState :=
  ⟨fun _ => 0, fun _ => 0, fun _ => 0, fun _ => 0, fun _ => 0⟩

/-- Embeds the aggregation loop of calculate_totals over all rows of all
per-category CSV files. -/
def runTotals (rows : List TRow) : TotState :=
  rows.foldl stepTotals initTotals

/-- The rows credited to category c that pass the
restricted-shape-differs-from-restricted-texture filter. -/
def filteredRows (rows : List TRow) (c : Fin 16) : List TRow :=
  rows.filter (fun r => decide (r.cat = c ∧ r.rs ≠ r.rt))

/-- Sum of a column over the filtered rows of a category. -/
def fsum (rows : List TRow) (c : Fin 16) (g : TRow → ℤ) : ℤ :=
  ((filteredRows rows c).map g).sum

/-- Embeds line 197 of main.py: the per-category Total Number Stimuli
column is the sum of the three per-category decision counters. -/
def totalNumStimuli (rows : List TRow) (c : Fin 16) : ℤ :=
  (runTotals rows).fsh c + (runTotals rows).ftx c + (runTotals rows).fne c

/-- Embeds lines 213-220 of main.py: the final total row sums each
dictionary over all 16 categories (sum of dict.values()), and its Total
Number Stimuli entry is the sum of the neither, texture and shape sums. -/
def grandTotalsRow (rows : List TRow) : ℤ × ℤ × ℤ × ℤ × ℤ × ℤ :=
  (∑ c, (runTotals rows).fsh c, ∑ c, (runTotals rows).ftx c,
   ∑ c, (runTotals rows).fne c, ∑ c, (runTotals rows).frs c,
   ∑ c, (runTotals rows).frt c,
   (∑ c, (runTotals rows).fne c) + (∑ c, (runTotals rows).ftx c) +
     (∑ c, (runTotals rows).fsh c))

/-! ## Pairwise similarity cache (src/main.py, triplets, lines 666 and 703-731) -/

/-- The sim_dict of triplets: an association list from ordered image-name
pairs to the stored similarity value (for the program, the list
[dot, cos, ed]). -/
def Cache (α : Type) : Type := List ((String × String) × α)

/-- Plain dictionary lookup on the ordered key. -/
def findPair {α : Type} : Cache α → String × String → Option α
  | [], _ => none
  | (k2, v) :: rest, k => if k = k2 then some v else findPair rest k

/-- Embeds the dual-order lookup of triplets (lines 703-711 and 718-726):
the pair is tried as (a, b) first and as (b, a) on a KeyError. -/
def lookup2 {α : Type} (c : Cache α) (a b : String) : Option α :=
  match findPair c (a, b) with
  | some v => some v
  | none => findPair c (b, a)

/-- Embeds one cache interaction of triplets: if neither ordering of the
pair is present, the similarity function is called and the result stored
under the query ordering (lines 712-716 and 727-731). Returns the value,
the new cache, and whether the underlying computation ran. -/
def stepCache {α : Type} (f : String → String → α) (c : Cache α)
    (a b : String) : α × Cache α × Bool :=
  match lookup2 c a b with
  | some v => (v, c, false)
  | none => (f a b, ((a, b), f a b) :: c, true)

/-- Runs the cache over a whole run's sequence of pair queries. -/
def runCache {α : Type} (f : String → String → α) :
    List (String × String) → Cache α → Cache α
  | [], c => c
  | q :: qs, c => runCache f qs (stepCache f c q.1 q.2).2.1

/-- Counts how many queries of the run trigger an underlying similarity
computation for the unordered pair p. -/
def countComputes {α : Type} (f : String → String → α) :
    List (String × String) → Cache α → String × String → ℕ
  | [], _, _ => 0
  | q :: qs, c, p =>
    (if (q = p ∨ q = (p.2, p.1)) ∧ (stepCache f c q.1 q.2).2.2 = true then 1
     else 0) +
      countComputes f qs (stepCache f c q.1 q.2).2.1 p

/-- Cache well-formedness: no unordered pair of distinct names is stored
under both orderings. -/
def wfCache {α : Type} (c : Cache α) : Prop :=
  ∀ a b : String, a ≠ b → findPair c (a, b) = none ∨ findPair c (b, a) = none

/-- Concrete similarity oracle used by the cache witness. -/
def simW : String → String → ℚ × ℚ × ℚ := fun _ _ => (1, 2, 3)

/-- Concrete query sequence used by the cache witness: the same unordered
pair queried under both orderings. -/
def qsW : List (String × String) := [("a", "b"), ("b", "a")]

/-! ## Helper lemmas -/

theorem getD_indexOf_mem {cats : List String} {x : String} (h : x ∈ cats)
    (d : String) : cats.getD (cats.indexOf x) d = x := by
  rw [List.getD_eq_getElem _ _ (List.indexOf_lt_length.2 h)]
  exact List.getElem_indexOf _

theorem restrictedDecision_of_gt {cats : List String} {values : List ℚ}
    {shape texture : String} (hs : shape ∈ cats)
    (h : catScore cats values texture < catScore cats values shape) :
    restrictedDecision cats values shape texture = shape := by
  rw [restrictedDecision, restrictedDecisionIdx, if_pos h]
  exact getD_indexOf_mem hs _

theorem restrictedDecision_of_le {cats : List String} {values : List ℚ}
    {shape texture : String} (ht : texture ∈ cats)
    (h : catScore cats values shape ≤ catScore cats values texture) :
    restrictedDecision cats values shape texture = texture := by
  rw [restrictedDecision, restrictedDecisionIdx, if_neg (not_lt.2 h)]
  exact getD_indexOf_mem ht _

theorem softmax2_sum (a b : ℝ) : (softmax2 a b).1 + (softmax2 a b).2 = 1 := by
  have h : Real.exp a + Real.exp b ≠ 0 := by positivity
  rw [softmax2]
  field_simp

theorem closerPair_pos {s t : ℝ} (h : t < s) : closerPair s t = (1, 0) := by
  rw [closerPair, if_pos h]

theorem closerPair_neg {s t : ℝ} (h : s ≤ t) : closerPair s t = (0, 1) := by
  rw [closerPair, if_neg (not_lt.2 h)]

theorem edCloserPair_pos {s t : ℝ} (h : s < t) : edCloserPair s t = (1, 0) := by
  rw [edCloserPair, if_pos h]

theorem edCloserPair_neg {s t : ℝ} (h : t ≤ s) : edCloserPair s t = (0, 1) := by
  rw [edCloserPair, if_neg (not_lt.2 h)]

theorem closerPair_compl (s t : ℝ) :
    (closerPair s t).1 = 1 ∧ (closerPair s t).2 = 0 ∨
    (closerPair s t).1 = 0 ∧ (closerPair s t).2 = 1 := by
  rw [closerPair]
  split_ifs <;> simp

theorem edCloserPair_compl (s t : ℝ) :
    (edCloserPair s t).1 = 1 ∧ (edCloserPair s t).2 = 0 ∨
    (edCloserPair s t).1 = 0 ∧ (edCloserPair s t).2 = 1 := by
  rw [edCloserPair]
  split_ifs <;> simp

theorem eps_le_one : epsTorch ≤ 1 := by
  rw [epsTorch]
  norm_num

theorem dotList_vAvS : dotList vA vS = 1 := by
  rw [dotList, vA, vS]
  norm_num

theorem dotList_vAvT : dotList vA vT = 0 := by
  rw [dotList, vA, vT]
  norm_num

theorem normL_vA : normL vA = 1 := by
  have h : sumSq vA = 1 := by
    rw [sumSq, vA]
    norm_num
  rw [normL, h, Real.sqrt_one]

theorem normL_vS : normL vS = 1 := by
  have h : sumSq vS = 1 := by
    rw [sumSq, vS]
    norm_num
  rw [normL, h, Real.sqrt_one]

theorem normL_vT : normL vT = 1 := by
  have h : sumSq vT = 1 := by
    rw [sumSq, vT]
    norm_num
  rw [normL, h, Real.sqrt_one]

theorem cosSim_vAvS : cosSimTorch vA vS = 1 := by
  rw [cosSimTorch, dotList_vAvS, normL_vA, normL_vS, one_mul,
    max_eq_left eps_le_one, div_one]

theorem cosSim_vAvT : cosSimTorch vA vT = 0 := by
  rw [cosSimTorch, dotList_vAvT, zero_div]

theorem cosDist_vAvS : cosDistScipy vA vS = 0 := by
  rw [cosDistScipy, dotList_vAvS, normL_vA, normL_vS, one_mul, div_one,
    sub_self]

theorem cosDist_vAvT : cosDistScipy vA vT = 1 := by
  rw [cosDistScipy, dotList_vAvT, zero_div, sub_zero]

theorem sumSq_nonneg (l : List ℝ) : 0 ≤ sumSq l := by
  induction l with
  | nil => simp [sumSq]
  | cons x xs ih =>
    rw [sumSq, List.map_cons, List.sum_cons]
    exact add_nonneg (mul_self_nonneg x) ih

theorem sumSq_map_mul (k : ℝ) (l : List ℝ) :
    sumSq (l.map (fun x => k * x)) = k ^ 2 * sumSq l := by
  induction l with
  | nil => simp [sumSq]
  | cons x xs ih =>
    rw [List.map_cons, sumSq, List.map_cons, List.sum_cons, ← sumSq, ih]
    rw [show sumSq (x :: xs) = x * x + sumSq xs by
      rw [sumSq, List.map_cons, List.sum_cons, ← sumSq]]
    ring

theorem firstNonneg_nonneg {draws : List ℚ} {m : ℚ}
    (h : firstNonneg draws = some m) : 0 ≤ m := by
  induction draws with
  | nil => exact absurd h (by rw [firstNonneg]; exact fun hc => Option.noConfusion hc)
  | cons x xs ih =>
    rw [firstNonneg] at h
    split_ifs at h with hx
    · exact ih h
    · rw [Option.some_inj] at h
      rw [← h]
      exact not_lt.1 hx

theorem normL_rescale {mag : ℝ} (hm : 0 ≤ mag) (l : List ℝ)
    (hl : 0 < sumSq l) : normL (rescaleVec mag l) = mag := by
  have hnp : 0 < normL l := Real.sqrt_pos.2 hl
  have hfun : (fun x => mag * x / normL l) = fun x => (mag / normL l) * x := by
    funext x
    ring
  rw [rescaleVec, hfun, normL, sumSq_map_mul, Real.sqrt_mul (sq_nonneg _),
    Real.sqrt_sq_eq_abs, abs_of_nonneg (div_nonneg hm hnp.le)]
  rw [show Real.sqrt (sumSq l) = normL l from rfl]
  exact div_mul_cancel₀ mag hnp.ne'

theorem cellSum_step {m : Mat} {r : SRow} (h : compl01 r) :
    cellSum (matrixStep m r) = cellSum m + 1 := by
  obtain ⟨hd, hc, _⟩ := h
  rcases hd with ⟨hd1, hd2⟩ | ⟨hd1, hd2⟩ <;>
    rcases hc with ⟨hc1, hc2⟩ | ⟨hc1, hc2⟩ <;>
    simp [matrixStep, cellSum, hd1, hd2, hc1, hc2] <;> omega

theorem matrixFold_all (rows : List SRow) (h : ∀ r ∈ rows, compl01 r)
    (m : Mat) : cellSum (rows.foldl matrixStep m) = cellSum m + rows.length := by
  induction rows generalizing m with
  | nil => simp
  | cons r rows ih =>
    rw [List.foldl_cons, ih (fun x hx => h x (List.mem_cons_of_mem r hx)),
      cellSum_step (h r (List.mem_cons_self r rows)), List.length_cons]
    omega

theorem sumBy_complement (rows : List SRow) (g h2 : SRow → ℤ)
    (hc : ∀ r ∈ rows, g r + h2 r = 1) :
    sumBy rows g + sumBy rows h2 = rows.length := by
  induction rows with
  | nil => simp [sumBy]
  | cons r rows ih =>
    have hr := hc r (List.mem_cons_self r rows)
    have ih2 := ih (fun x hx => hc x (List.mem_cons_of_mem r hx))
    rw [sumBy, List.map_cons, List.sum_cons, sumBy, List.map_cons,
      List.sum_cons, List.length_cons]
    rw [sumBy, sumBy] at ih2
    push_cast
    linarith

theorem prop_pair_sum (rows : List SRow) (g h2 : SRow → ℤ)
    (hc : ∀ r ∈ rows, g r + h2 r = 1) (hne : rows ≠ []) :
    ((sumBy rows g : ℤ) : ℚ) / (rows.length : ℚ) +
      ((sumBy rows h2 : ℤ) : ℚ) / (rows.length : ℚ) = 1 := by
  have hlen : (rows.length : ℚ) ≠ 0 :=
    Nat.cast_ne_zero.2 (fun h0 => hne (List.length_eq_zero.1 h0))
  have hsum : ((sumBy rows g : ℤ) : ℚ) + ((sumBy rows h2 : ℤ) : ℚ) =
      (rows.length : ℚ) := by
    have := sumBy_complement rows g h2 hc
    exact_mod_cast congrArg (fun z : ℤ => (z : ℚ)) this
  rw [div_add_div_same, hsum, div_self hlen]

theorem findPair_cons {α : Type} (k2 : String × String) (v : α) (rest : Cache α)
    (k : String × String) :
    findPair ((k2, v) :: rest) k = if k = k2 then some v else findPair rest k :=
  rfl

theorem lookup2_none_iff {α : Type} (c : Cache α) (a b : String) :
    lookup2 c a b = none ↔
      findPair c (a, b) = none ∧ findPair c (b, a) = none := by
  rw [lookup2]
  cases h : findPair c (a, b) <;> simp [h]

theorem lookup2_ne_none_swap {α : Type} {c : Cache α} {a b : String}
    (h : lookup2 c a b ≠ none) : lookup2 c b a ≠ none := by
  rw [lookup2] at h ⊢
  cases h1 : findPair c (b, a) <;> cases h2 : findPair c (a, b) <;> simp_all

theorem lookup2_cons_self {α : Type} (c : Cache α) (x y : String) (v : α)
    (h : lookup2 c x y = none) :
    lookup2 (((x, y), v) :: c) x y = some v ∧
    lookup2 (((x, y), v) :: c) y x = some v := by
  rw [lookup2_none_iff] at h
  constructor
  · rw [lookup2, findPair_cons, if_pos rfl]
  · by_cases hxy : ((y, x) : String × String) = (x, y)
    · rw [lookup2, findPair_cons, if_pos hxy]
    · rw [lookup2, findPair_cons, if_neg hxy, h.2, findPair_cons, if_pos rfl]

theorem lookup2_mono {α : Type} (f : String → String → α) (c : Cache α)
    (x y a b : String) {v : α} (h : lookup2 c a b = some v) :
    lookup2 (stepCache f c x y).2.1 a b = some v := by
  cases hxy : lookup2 c x y with
  | some w => simpa [stepCache, hxy] using h
  | none =>
    have hno := (lookup2_none_iff _ _ _).1 hxy
    simp only [stepCache, hxy]
    have hab : ((a, b) : String × String) ≠ (x, y) := by
      intro he
      have ha : a = x := congrArg Prod.fst he
      have hb : b = y := congrArg Prod.snd he
      rw [ha, hb, hxy] at h
      exact Option.noConfusion h
    have hba : ((b, a) : String × String) ≠ (x, y) := by
      intro he
      have hb : b = x := congrArg Prod.fst he
      have ha : a = y := congrArg Prod.snd he
      have hsw : lookup2 c b a ≠ none :=
        lookup2_ne_none_swap (h ▸ fun hc => Option.noConfusion hc)
      rw [hb, ha, hxy] at hsw
      exact hsw rfl
    rw [lookup2, findPair_cons, if_neg hab]
    rw [lookup2] at h
    cases h2 : findPair c (a, b) with
    | some w => rw [h2] at h; simpa using h
    | none =>
      rw [h2] at h
      simp only []
      rw [findPair_cons, if_neg hba]
      exact h

theorem wfCache_nil {α : Type} : wfCache ([] : Cache α) :=
  fun _ _ _ => Or.inl rfl

theorem wfCache_step {α : Type} (f : String → String → α) (c : Cache α)
    (x y : String) (h : wfCache c) : wfCache (stepCache f c x y).2.1 := by
  cases hxy : lookup2 c x y with
  | some w => simpa [stepCache, hxy] using h
  | none =>
    have hno := (lookup2_none_iff _ _ _).1 hxy
    simp only [stepCache, hxy]
    intro a b hab
    by_cases h1 : ((a, b) : String × String) = (x, y)
    · right
      have ha : a = x := congrArg Prod.fst h1
      have hb : b = y := congrArg Prod.snd h1
      have hne : ((b, a) : String × String) ≠ (x, y) := by
        intro he
        exact hab (ha.trans (congrArg Prod.fst he).symm)
      rw [findPair_cons, if_neg hne, hb, ha]
      exact hno.2
    · by_cases h2 : ((b, a) : String × String) = (x, y)
      · left
        have hb : b = x := congrArg Prod.fst h2
        have ha : a = y := congrArg Prod.snd h2
        rw [findPair_cons, if_neg h1, ha, hb]
        exact hno.2
      · rcases h a b hab with h3 | h3
        · left
          rw [findPair_cons, if_neg h1]
          exact h3
        · right
          rw [findPair_cons, if_neg h2]
          exact h3

theorem wfCache_run {α : Type} (f : String → String → α)
    (qs : List (String × String)) (c : Cache α) (h : wfCache c) :
    wfCache (runCache f qs c) := by
  induction qs generalizing c with
  | nil => exact h
  | cons q qs ih => exact ih _ (wfCache_step f c q.1 q.2 h)

theorem lookup2_symm {α : Type} {c : Cache α} (h : wfCache c) (a b : String) :
    lookup2 c a b = lookup2 c b a := by
  by_cases hab : a = b
  · rw [hab]
  · rcases h a b hab with h1 | h1 <;>
      cases h2 : findPair c (b, a) <;> cases h3 : findPair c (a, b) <;>
      simp_all [lookup2]

theorem lookup2_run_mono {α : Type} (f : String → String → α)
    (qs : List (String × String)) (c : Cache α) (a b : String) {v : α}
    (h : lookup2 c a b = some v) : lookup2 (runCache f qs c) a b = some v := by
  induction qs generalizing c with
  | nil => exact h
  | cons q qs ih => exact ih _ (lookup2_mono f c q.1 q.2 a b h)

theorem stepCache_computed_none {α : Type} {f : String → String → α}
    {c : Cache α} {x y : String} (h : (stepCache f c x y).2.2 = true) :
    lookup2 c x y = none := by
  cases hl : lookup2 c x y with
  | some w => simp [stepCache, hl] at h
  | none => rfl

theorem countComputes_eq_zero {α : Type} (f : String → String → α)
    (qs : List (String × String)) (c : Cache α) (p : String × String)
    (h : lookup2 c p.1 p.2 ≠ none) : countComputes f qs c p = 0 := by
  induction qs generalizing c with
  | nil => rfl
  | cons q qs ih =>
    rw [countComputes]
    obtain ⟨v, hv⟩ := Option.ne_none_iff_exists'.1 h
    have hmono : lookup2 (stepCache f c q.1 q.2).2.1 p.1 p.2 ≠ none := by
      rw [lookup2_mono f c q.1 q.2 p.1 p.2 hv]
      exact fun hc => Option.noConfusion hc
    rw [ih _ hmono]
    have hcond : ¬ ((q = p ∨ q = (p.2, p.1)) ∧
        (stepCache f c q.1 q.2).2.2 = true) := by
      rintro ⟨hq, hcomp⟩
      have hnone := stepCache_computed_none hcomp
      cases hq with
      | inl he => rw [he] at hnone; exact h hnone
      | inr he =>
        have h1 : q.1 = p.2 := congrArg Prod.fst he
        have h2 : q.2 = p.1 := congrArg Prod.snd he
        rw [h1, h2] at hnone
        exact lookup2_ne_none_swap h hnone
    rw [if_neg hcond]

theorem countComputes_le_one {α : Type} (f : String → String → α)
    (qs : List (String × String)) (c : Cache α) (p : String × String) :
    countComputes f qs c p ≤ 1 := by
  induction qs generalizing c with
  | nil => exact Nat.zero_le 1
  | cons q qs ih =>
    rw [countComputes]
    by_cases hcond : (q = p ∨ q = (p.2, p.1)) ∧
        (stepCache f c q.1 q.2).2.2 = true
    · rw [if_pos hcond]
      have hnone := stepCache_computed_none hcond.2
      have hboth := lookup2_cons_self c q.1 q.2 (f q.1 q.2) hnone
      have hnew : (stepCache f c q.1 q.2).2.1 = ((q.1, q.2), f q.1 q.2) :: c := by
        simp [stepCache, hnone]
      have hpresent : lookup2 (stepCache f c q.1 q.2).2.1 p.1 p.2 ≠ none := by
        rw [hnew]
        cases hcond.1 with
        | inl he =>
          have h1 : p.1 = q.1 := (congrArg Prod.fst he).symm
          have h2 : p.2 = q.2 := (congrArg Prod.snd he).symm
          rw [h1, h2, hboth.1]
          exact fun hc => Option.noConfusion hc
        | inr he =>
          have h1 : p.2 = q.1 := (congrArg Prod.fst he).symm
          have h2 : p.1 = q.2 := (congrArg Prod.snd he).symm
          rw [h1, h2, hboth.2]
          exact fun hc => Option.noConfusion hc
      rw [countComputes_eq_zero f qs _ p hpresent]
    · rw [if_neg hcond]
      simpa using ih _

theorem fsum_cons (r : TRow) (rows : List TRow) (c : Fin 16) (g : TRow → ℤ) :
    fsum (r :: rows) c g =
      (if r.cat = c ∧ r.rs ≠ r.rt then g r else 0) + fsum rows c g := by
  by_cases h : r.cat = c ∧ r.rs ≠ r.rt
  · simp [fsum, filteredRows, List.filter_cons, h]
  · simp [fsum, filteredRows, List.filter_cons, h]

theorem runTotals_foldl (rows : List TRow) (st : TotState) (c : Fin 16) :
    (rows.foldl stepTotals st).fsh c = st.fsh c + fsum rows c (fun r => r.sd) ∧
    (rows.foldl stepTotals st).ftx c = st.ftx c + fsum rows c (fun r => r.td) ∧
    (rows.foldl stepTotals st).fne c = st.fne c + fsum rows c (fun r => r.nei) ∧
    (rows.foldl stepTotals st).frs c = st.frs c + fsum rows c (fun r => r.rs) ∧
    (rows.foldl stepTotals st).frt c = st.frt c + fsum rows c (fun r => r.rt) := by
  induction rows generalizing st with
  | nil => simp [fsum, filteredRows]
  | cons r rows ih =>
    rw [List.foldl_cons]
    obtain ⟨ih1, ih2, ih3, ih4, ih5⟩ := ih (stepTotals st r)
    rw [ih1, ih2, ih3, ih4, ih5, fsum_cons, fsum_cons, fsum_cons, fsum_cons,
      fsum_cons]
    by_cases h : r.rs = r.rt
    · have hstep : stepTotals st r = st := by rw [stepTotals, if_pos h]
      simp [hstep, h]
    · by_cases hc : r.cat = c
      · have hc2 : c = r.cat := hc.symm
        rw [stepTotals, if_neg h]
        simp only [bump, if_pos hc2]
        refine ⟨?_, ?_, ?_, ?_, ?_⟩ <;> rw [if_pos ⟨hc, h⟩] <;> ring
      · have hc2 : ¬ c = r.cat := fun hcc => hc hcc.symm
        rw [stepTotals, if_neg h]
        simp only [bump, if_neg hc2]
        have hcond : ¬ (r.cat = c ∧ r.rs ≠ r.rt) := fun hco => hc hco.1
        refine ⟨?_, ?_, ?_, ?_, ?_⟩ <;> rw [if_neg hcond] <;> ring

/-! ## Claim theorems: totals aggregator -/

/-- C3: for every run of calculate_totals and every shape category, each
per-category counter is the sum of its column over exactly the rows whose
restricted-shape indicator differs from their restricted-texture
indicator; the reported per-category Total Number Stimuli equals
shape + texture + neither decisions; and every entry of the final total
row equals the sum of the corresponding per-category values. -/
theorem totals_aggregation_sums (rows : List TRow) :
    (∀ c, (runTotals rows).fsh c = fsum rows c (fun r => r.sd) ∧
          (runTotals rows).ftx c = fsum rows c (fun r => r.td) ∧
          (runTotals rows).fne c = fsum rows c (fun r => r.nei) ∧
          (runTotals rows).frs c = fsum rows c (fun r => r.rs) ∧
          (runTotals rows).frt c = fsum rows c (fun r => r.rt)) ∧
    (∀ c, totalNumStimuli rows c =
      fsum rows c (fun r => r.sd) + fsum rows c (fun r => r.td) +
        fsum rows c (fun r => r.nei)) ∧
    grandTotalsRow rows =
      (∑ c, (runTotals rows).fsh c, ∑ c, (runTotals rows).ftx c,
       ∑ c, (runTotals rows).fne c, ∑ c, (runTotals rows).frs c,
       ∑ c, (runTotals rows).frt c, ∑ c, totalNumStimuli rows c) := by
  have key : ∀ c : Fin 16,
      (runTotals rows).fsh c = fsum rows c (fun r => r.sd) ∧
      (runTotals rows).ftx c = fsum rows c (fun r => r.td) ∧
      (runTotals rows).fne c = fsum rows c (fun r => r.nei) ∧
      (runTotals rows).frs c = fsum rows c (fun r => r.rs) ∧
      (runTotals rows).frt c = fsum rows c (fun r => r.rt) := by
    intro c
    have h := runTotals_foldl rows initTotals c
    simpa [runTotals, initTotals] using h
  refine ⟨key, fun c => ?_, ?_⟩
  · obtain ⟨h1, h2, h3, _, _⟩ := key c
    rw [totalNumStimuli, h1, h2, h3]
  · rw [grandTotalsRow]
    refine congrArg _ (congrArg _ (congrArg _ (congrArg _ (congrArg _ ?_))))
    simp only [totalNumStimuli, Finset.sum_add_distrib]
    ring

/-! ## Claim theorems: decision reducer -/

/-- C1 counterexample: with all 16 scores equal (an exact tie between the
shape score and the texture score), the restricted decision block of
main.py picks the texture label "truck", not the shape label "cat" as the
claim's tie-break direction states. -/
theorem restricted_tie_counterexample :
    restrictedDecision geirhos16 (List.replicate 16 1) "cat" "truck" = "truck" ∧
    restrictedDecision geirhos16 (List.replicate 16 1) "cat" "truck" ≠ "cat" := by
  decide

/-- C1 (amended): for every category score vector and every shape/texture
label pair (both labels in the category list), the restricted decision is
whichever of the shape label and the texture label has the strictly higher
score; when the two scores are exactly equal, the tie is broken toward the
TEXTURE label (the comparison is strict greater-than with shape on the
left, so the else branch selects the texture index). -/
theorem restricted_decision_tie_texture (cats : List String) (values : List ℚ)
    (shape texture : String) (hs : shape ∈ cats) (ht : texture ∈ cats) :
    (catScore cats values texture < catScore cats values shape →
      restrictedDecision cats values shape texture = shape) ∧
    (catScore cats values shape ≤ catScore cats values texture →
      restrictedDecision cats values shape texture = texture) :=
  ⟨fun h => restrictedDecision_of_gt hs h, fun h => restrictedDecision_of_le ht h⟩

/-- Witness for C1 (amended) at a concrete tied input: all scores 1,
shape "cat", texture "truck"; the restricted decision is "truck". -/
theorem restricted_decision_tie_texture_witness :
    ("cat" ∈ geirhos16) ∧ ("truck" ∈ geirhos16) ∧
    catScore geirhos16 (List.replicate 16 1) "cat" ≤
      catScore geirhos16 (List.replicate 16 1) "truck" ∧
    restrictedDecision geirhos16 (List.replicate 16 1) "cat" "truck" = "truck" :=
  ⟨by decide, by decide, by decide,
   (restricted_decision_tie_texture geirhos16 (List.replicate 16 1) "cat" "truck"
     (by decide) (by decide)).2 (by decide)⟩

/-- C2: when the shape score and texture score differ, the restricted
decision is the label with the strictly higher raw score, and the
restricted 2-vector produced by the 2-way softmax of the two raw scores
sums to exactly 1 in real arithmetic. -/
theorem restricted_decision_higher_score (cats : List String) (values : List ℚ)
    (shape texture : String) (hs : shape ∈ cats) (ht : texture ∈ cats)
    (hne : catScore cats values shape ≠ catScore cats values texture) :
    (catScore cats values texture < catScore cats values shape →
      restrictedDecision cats values shape texture = shape) ∧
    (catScore cats values shape < catScore cats values texture →
      restrictedDecision cats values shape texture = texture) ∧
    (restrictedClassValues cats values shape texture).1 +
      (restrictedClassValues cats values shape texture).2 = 1 ∧
    (∀ a b : ℝ, (softmax2 a b).1 + (softmax2 a b).2 = 1) :=
  ⟨fun h => restrictedDecision_of_gt hs h,
   fun h => restrictedDecision_of_le ht h.le,
   softmax2_sum _ _,
   softmax2_sum⟩

/-- Witness for C2 at a concrete input: scores 7 for "cat" (shape) and
2 for "truck" (texture); the scores differ and the restricted decision is
"cat", the higher-scored label. -/
theorem restricted_decision_higher_score_witness :
    ("cat" ∈ geirhos16) ∧ ("truck" ∈ geirhos16) ∧
    catScore geirhos16 [0, 0, 0, 0, 0, 0, 0, 7, 0, 0, 0, 0, 0, 0, 0, 2] "cat" ≠
      catScore geirhos16 [0, 0, 0, 0, 0, 0, 0, 7, 0, 0, 0, 0, 0, 0, 0, 2] "truck" ∧
    restrictedDecision geirhos16 [0, 0, 0, 0, 0, 0, 0, 7, 0, 0, 0, 0, 0, 0, 0, 2]
      "cat" "truck" = "cat" :=
  ⟨by decide, by decide, by decide,
   (restricted_decision_higher_score geirhos16
     [0, 0, 0, 0, 0, 0, 0, 7, 0, 0, 0, 0, 0, 0, 0, 2] "cat" "truck"
     (by decide) (by decide) (by decide)).1 (by decide)⟩

/-! ## Claim theorems: pairwise similarity cache -/

/-- C5: over a whole run of the triplet engine's cache (started empty),
a lookup of any pair under either ordering returns the identical cached
value; once a value is cached it persists unchanged for the rest of the
run; and the underlying similarity computation runs at most once per
unordered pair. -/
theorem sim_cache_once {α : Type} (f : String → String → α)
    (qs : List (String × String)) :
    (∀ a b : String,
      lookup2 (runCache f qs []) a b = lookup2 (runCache f qs []) b a) ∧
    (∀ p : String × String, countComputes f qs [] p ≤ 1) ∧
    (∀ (c : Cache α) (a b : String) (v : α), lookup2 c a b = some v →
      lookup2 (runCache f qs c) a b = some v) :=
  ⟨fun a b => lookup2_symm (wfCache_run f qs [] wfCache_nil) a b,
   fun p => countComputes_le_one f qs [] p,
   fun c a b _ h => lookup2_run_mono f qs c a b h⟩

/-- Witness for C5 at a concrete run: the pair ("a","b") queried under
both orderings; both lookups agree and at most one computation happens. -/
theorem sim_cache_once_witness :
    lookup2 (runCache simW qsW []) "a" "b" =
      lookup2 (runCache simW qsW []) "b" "a" ∧
    countComputes simW qsW [] ("a", "b") ≤ 1 ∧
    lookup2 (runCache simW qsW (((("a", "b") : String × String), ((1 : ℚ), (2 : ℚ), (3 : ℚ))) :: [])) "a" "b" =
      some (1, 2, 3) :=
  ⟨(sim_cache_once simW qsW).1 "a" "b",
   (sim_cache_once simW qsW).2.1 ("a", "b"),
   (sim_cache_once simW qsW).2.2 _ "a" "b" (1, 2, 3)
     (by rw [lookup2, findPair_cons, if_pos rfl])⟩

/-! ## Claim theorems: null-model generator vs triplet engine -/

/-- C6 counterexample: at the concrete triplet (anchor [1,0], shape match
[1,0], texture match [0,1]) the generator's stored shape Cos value (scipy
cosine distance, 0) differs from the engine's (torch cosine similarity,
1), and their shape-cos closer indicators differ as well, so the
generator does not compute the same measures and indicators as the
engine. -/
theorem fake_engine_cos_mismatch :
    (fakeRow vA vS vT).sCos ≠ (engineRow vA vS vT).sCos ∧
    (fakeRow vA vS vT).sCosC ≠ (engineRow vA vS vT).sCosC := by
  constructor
  · show cosDistScipy vA vS ≠ cosSimTorch vA vS
    rw [cosDist_vAvS, cosSim_vAvS]
    norm_num
  · show (closerPair (cosDistScipy vA vS) (cosDistScipy vA vT)).1 ≠
      (closerPair (cosSimTorch vA vS) (cosSimTorch vA vT)).1
    rw [cosDist_vAvS, cosDist_vAvT, cosSim_vAvS, cosSim_vAvT,
      closerPair_pos (by norm_num : (0 : ℝ) < 1),
      closerPair_neg (by norm_num : (0 : ℝ) ≤ 1)]
    norm_num

/-- C6 (amended): for every synthetic triplet whose norm products are at
least the torch epsilon, the generator computes the same dot products and
the same dot closer-indicators as the engine, but its Cos columns hold
one minus the engine's cosine similarity (scipy cosine distance), so its
cosine closer-indicator pair is the reverse of the engine's whenever the
two cosine similarities differ (and (0,1) on ties, like the engine); it
computes no Euclidean distance columns at all. -/
theorem fake_engine_relation (a s t : List ℝ)
    (hs : epsTorch ≤ normL a * normL s) (ht : epsTorch ≤ normL a * normL t) :
    (fakeRow a s t).sDot = (engineRow a s t).sDot ∧
    (fakeRow a s t).tDot = (engineRow a s t).tDot ∧
    (fakeRow a s t).sDotC = (engineRow a s t).sDotC ∧
    (fakeRow a s t).tDotC = (engineRow a s t).tDotC ∧
    (fakeRow a s t).sCos = 1 - (engineRow a s t).sCos ∧
    (fakeRow a s t).tCos = 1 - (engineRow a s t).tCos ∧
    ((fakeRow a s t).sCosC, (fakeRow a s t).tCosC) =
      (if (engineRow a s t).sCos < (engineRow a s t).tCos then ((1 : ℤ), (0 : ℤ))
       else (0, 1)) := by
  have hcs : cosDistScipy a s = 1 - cosSimTorch a s := by
    rw [cosDistScipy, cosSimTorch, max_eq_left hs]
  have hct : cosDistScipy a t = 1 - cosSimTorch a t := by
    rw [cosDistScipy, cosSimTorch, max_eq_left ht]
  have hpair : closerPair (cosDistScipy a s) (cosDistScipy a t) =
      if cosSimTorch a s < cosSimTorch a t then ((1 : ℤ), (0 : ℤ)) else (0, 1) := by
    rw [hcs, hct]
    by_cases h : cosSimTorch a s < cosSimTorch a t
    · rw [if_pos h]
      exact closerPair_pos (by linarith)
    · rw [if_neg h]
      push_neg at h
      exact closerPair_neg (by linarith)
  exact ⟨rfl, rfl, rfl, rfl, hcs, hct, hpair⟩

/-- Witness for C6 (amended) at the concrete triplet ([1,0], [1,0], [0,1]):
the epsilon hypotheses hold and the generator's Cos value is one minus
the engine's. -/
theorem fake_engine_relation_witness :
    epsTorch ≤ normL vA * normL vS ∧ epsTorch ≤ normL vA * normL vT ∧
    (fakeRow vA vS vT).sCos = 1 - (engineRow vA vS vT).sCos := by
  have h1 : epsTorch ≤ normL vA * normL vS := by
    rw [normL_vA, normL_vS, one_mul]
    exact eps_le_one
  have h2 : epsTorch ≤ normL vA * normL vT := by
    rw [normL_vA, normL_vT, one_mul]
    exact eps_le_one
  exact ⟨h1, h2, (fake_engine_relation vA vS vT h1 h2).2.2.2.2.1⟩

/-! ## Claim theorems: similarity totals aggregator -/

/-- C7: in matrix mode there are input row sets for which the four matrix
cells sum to strictly less than the number of rows: a row whose
indicators take a combination the nested conditionals do not cover (here
dot credits shape but neither cosine indicator is set) is silently
dropped, counted in no cell. -/
theorem matrix_drops_rows :
    cellSum (matrixFold [droppedRow]) < ([droppedRow] : List SRow).length := by
  decide

/-- C9: the accepted target magnitude is the first non-negative draw of
the oracle stream (negative draws are rejected and redrawn), hence
non-negative; rescaling any vector of positive sum of squares to that
magnitude produces a vector whose Euclidean magnitude equals the drawn
target exactly; and the normal draw's scale parameter at the empirical
stats (mean 10, min 5, max 20) is min(5, 10)/2 = 5/2. -/
theorem fake_magnitude_rescale (draws : List ℚ) (mag : ℚ)
    (h : firstNonneg draws = some mag) :
    0 ≤ mag ∧
    (∀ l : List ℝ, 0 < sumSq l →
      normL (rescaleVec ((mag : ℚ) : ℝ) l) = ((mag : ℚ) : ℝ)) ∧
    scaleParam 10 5 20 = 5 / 2 := by
  have hm : 0 ≤ mag := firstNonneg_nonneg h
  refine ⟨hm, fun l hl => normL_rescale (by exact_mod_cast hm) l hl, ?_⟩
  rw [scaleParam]
  norm_num

/-- Witness for C9 at a concrete input: draw stream [-1, 3] (the negative
draw is rejected, 3 accepted) and vector [3, 4] (magnitude 5), rescaled
to magnitude 3. -/
theorem fake_magnitude_rescale_witness :
    firstNonneg [-1, 3] = some 3 ∧ 0 < sumSq [(3 : ℝ), 4] ∧
    0 ≤ (3 : ℚ) ∧
    normL (rescaleVec (((3 : ℚ) : ℚ) : ℝ) [(3 : ℝ), 4]) = (((3 : ℚ) : ℚ) : ℝ) := by
  have h1 : firstNonneg [-1, 3] = some 3 := by decide
  have h2 : 0 < sumSq [(3 : ℝ), 4] := by
    rw [sumSq]
    norm_num
  exact ⟨h1, h2, by norm_num, (fake_magnitude_rescale [-1, 3] 3 h1).2.1 _ h2⟩

/-- C10 (implicit): every row written by the triplet engine has exactly
complementary shape/texture indicator pairs for dot, cosine and Euclidean
distance, and every fake-triplet row for dot and cosine (its only
measures); consequently in proportions mode the shape and texture
proportions of each measure sum to exactly 1 (for a non-empty row set),
and in matrix mode every row with complementary 0/1 indicators is counted
in exactly one of the four cells, so the cells sum to the row count. -/
theorem indicator_complement_consequences :
    (∀ a s t : List ℝ,
      ((engineRow a s t).sDotC = 1 ∧ (engineRow a s t).tDotC = 0 ∨
        (engineRow a s t).sDotC = 0 ∧ (engineRow a s t).tDotC = 1) ∧
      ((engineRow a s t).sCosC = 1 ∧ (engineRow a s t).tCosC = 0 ∨
        (engineRow a s t).sCosC = 0 ∧ (engineRow a s t).tCosC = 1) ∧
      ((engineRow a s t).sEdC = 1 ∧ (engineRow a s t).tEdC = 0 ∨
        (engineRow a s t).sEdC = 0 ∧ (engineRow a s t).tEdC = 1)) ∧
    (∀ a s t : List ℝ,
      ((fakeRow a s t).sDotC = 1 ∧ (fakeRow a s t).tDotC = 0 ∨
        (fakeRow a s t).sDotC = 0 ∧ (fakeRow a s t).tDotC = 1) ∧
      ((fakeRow a s t).sCosC = 1 ∧ (fakeRow a s t).tCosC = 0 ∨
        (fakeRow a s t).sCosC = 0 ∧ (fakeRow a s t).tCosC = 1)) ∧
    (∀ rows : List SRow,
      (∀ r ∈ rows, r.sd + r.td = 1 ∧ r.sc + r.tc = 1 ∧ r.se + r.te = 1) →
      rows ≠ [] →
      (propRow rows).1 + (propRow rows).2.2.2.1 = 1 ∧
      (propRow rows).2.1 + (propRow rows).2.2.2.2.1 = 1 ∧
      (propRow rows).2.2.1 + (propRow rows).2.2.2.2.2 = 1) ∧
    (∀ (m : Mat) (r : SRow), compl01 r →
      cellSum (matrixStep m r) = cellSum m + 1) ∧
    (∀ rows : List SRow, (∀ r ∈ rows, compl01 r) →
      cellSum (matrixFold rows) = rows.length) := by
  refine ⟨fun a s t => ⟨closerPair_compl _ _, closerPair_compl _ _,
      edCloserPair_compl _ _⟩,
    fun a s t => ⟨closerPair_compl _ _, closerPair_compl _ _⟩,
    fun rows hc hne => ?_, fun m r h => cellSum_step h, fun rows h => ?_⟩
  · exact ⟨prop_pair_sum rows _ _ (fun r hr => (hc r hr).1) hne,
      prop_pair_sum rows _ _ (fun r hr => (hc r hr).2.1) hne,
      prop_pair_sum rows _ _ (fun r hr => (hc r hr).2.2) hne⟩
  · rw [matrixFold, matrixFold_all rows h ⟨0, 0, 0, 0⟩]
    rw [show cellSum ⟨0, 0, 0, 0⟩ = 0 from rfl, Nat.zero_add]

/-- Witness for C10 at a concrete row set: the single well-formed row
rowW; its dot proportions sum to 1 and the matrix cells sum to the row
count. -/
theorem indicator_complement_consequences_witness :
    (∀ r ∈ ([rowW] : List SRow),
      r.sd + r.td = 1 ∧ r.sc + r.tc = 1 ∧ r.se + r.te = 1) ∧
    ([rowW] : List SRow) ≠ [] ∧
    (propRow [rowW]).1 + (propRow [rowW]).2.2.2.1 = 1 ∧
    cellSum (matrixFold [rowW]) = ([rowW] : List SRow).length := by
  have h1 : ∀ r ∈ ([rowW] : List SRow),
      r.sd + r.td = 1 ∧ r.sc + r.tc = 1 ∧ r.se + r.te = 1 := by decide
  have h2 : ([rowW] : List SRow) ≠ [] := by decide
  have h3 : ∀ r ∈ ([rowW] : List SRow), compl01 r := by decide
  exact ⟨h1, h2,
    (indicator_complement_consequences.2.2.1 [rowW] h1 h2).1,
    indicator_complement_consequences.2.2.2.2 [rowW] h3⟩

/-! ## Claim theorems: closer indicators and proportions -/

/-- C4: the three closer indicators are computed by strict comparison
(shape wins dot and cosine on strictly greater, Euclidean on strictly
smaller), every exact tie goes to the texture side, and in particular
shape dot 5 vs texture dot 3 gives (1,0) while shape ED 2 vs texture ED 1
gives (0,1). For every triplet, the engine's indicator columns are
exactly these comparison combinators applied to its measure columns. -/
theorem closer_indicators_strict :
    (∀ a s t : List ℝ,
      ((engineRow a s t).sDotC, (engineRow a s t).tDotC) =
        closerPair (engineRow a s t).sDot (engineRow a s t).tDot ∧
      ((engineRow a s t).sCosC, (engineRow a s t).tCosC) =
        closerPair (engineRow a s t).sCos (engineRow a s t).tCos ∧
      ((engineRow a s t).sEdC, (engineRow a s t).tEdC) =
        edCloserPair (engineRow a s t).sEd (engineRow a s t).tEd) ∧
    (∀ s t : ℝ, (closerPair s t = (1, 0) ↔ t < s) ∧
      (closerPair s t = (0, 1) ↔ s ≤ t) ∧
      (edCloserPair s t = (1, 0) ↔ s < t) ∧
      (edCloserPair s t = (0, 1) ↔ t ≤ s)) ∧
    (∀ v : ℝ, closerPair v v = (0, 1) ∧ edCloserPair v v = (0, 1)) ∧
    closerPair (5 : ℝ) 3 = (1, 0) ∧ edCloserPair (2 : ℝ) 1 = (0, 1) := by
  refine ⟨fun a s t => ⟨rfl, rfl, rfl⟩, fun s t => ?_, fun v => ?_, ?_, ?_⟩
  · by_cases h : t < s
    · simp [closerPair, edCloserPair, gt_iff_lt, h, not_lt.1, h.not_lt, not_lt.2 h.le]
    · by_cases h2 : s < t
      · simp [closerPair, edCloserPair, gt_iff_lt, h, h2, not_lt.1 h, h2.le, not_lt.2 h2.le]
      · simp [closerPair, edCloserPair, gt_iff_lt, h, h2, not_lt.1 h, not_lt.1 h2]
  · simp [closerPair, edCloserPair, gt_iff_lt]
  · rw [closerPair, if_pos (by norm_num : (5 : ℝ) > 3)]
  · rw [edCloserPair, if_neg (by norm_num : ¬ (2 : ℝ) < 1)]

/-- C8: if the totals row has shape + texture decisions equal to 0, the
proportion computation of calculate_proportions fails (returns no value,
modelling Python's ZeroDivisionError); when shape + texture > 0 and
total > 0 it succeeds and yields exactly the six claimed ratios. -/
theorem proportions_zero_division :
    (∀ shape texture total rshape rtexture : ℕ, shape + texture = 0 →
      calculate_proportions shape texture total rshape rtexture = none) ∧
    (∀ shape texture total rshape rtexture : ℕ,
      0 < shape + texture → 0 < total →
      calculate_proportions shape texture total rshape rtexture =
        some ((shape : ℚ) / ((shape : ℚ) + (texture : ℚ)),
              (texture : ℚ) / ((shape : ℚ) + (texture : ℚ)),
              (shape : ℚ) / (total : ℚ),
              (texture : ℚ) / (total : ℚ),
              (rshape : ℚ) / (total : ℚ),
              (rtexture : ℚ) / (total : ℚ))) := by
  constructor
  · intro shape texture total rshape rtexture h
    rw [calculate_proportions]
    split_ifs <;> simp_all
  · intro shape texture total rshape rtexture h1 h2
    rw [calculate_proportions, if_neg h2.ne.symm, if_neg h1.ne.symm]

/-- Witness for C8 at a concrete run (shape 80, texture 20, total 100,
restricted 50/50): the computation succeeds with the claimed ratios. -/
theorem proportions_zero_division_witness :
    0 < 80 + 20 ∧ 0 < 100 ∧
    calculate_proportions 80 20 100 50 50 =
      some (((80 : ℕ) : ℚ) / (((80 : ℕ) : ℚ) + ((20 : ℕ) : ℚ)),
            ((20 : ℕ) : ℚ) / (((80 : ℕ) : ℚ) + ((20 : ℕ) : ℚ)),
            ((80 : ℕ) : ℚ) / ((100 : ℕ) : ℚ),
            ((20 : ℕ) : ℚ) / ((100 : ℕ) : ℚ),
            ((50 : ℕ) : ℚ) / ((100 : ℕ) : ℚ),
            ((50 : ℕ) : ℚ) / ((100 : ℕ) : ℚ)) :=
  ⟨by norm_num, by norm_num,
   proportions_zero_division.2 80 20 100 50 50 (by norm_num) (by norm_num)⟩

end Saycam
